import Mathlib

-- Verification of the bbs-tui realtime/session core against its specification.
-- The Rust sources under crates/bbs-tui/src are shallowly embedded below:
-- pure functions become Lean functions, the Postgres database becomes an
-- explicit Store value threaded through the data-layer functions, the terminal
-- event loop becomes a step function on an App state, and f64 arithmetic in
-- the token bucket is modelled by exact rationals (keeping the code's 1e-9
-- comparison tolerance). Timestamps are integer seconds except for the token
-- bucket's Instant, which is a rational number of seconds.

namespace BBS

-- ===========================================================================
-- DEFINITIONS
-- ===========================================================================

-- ---------------------------------------------------------------------------
-- Change Notifier backoff (realtime.rs, spawn_listener)
-- ---------------------------------------------------------------------------

/-- Next backoff counter after a failed subscription cycle:
mirrors the update `backoff_secs = (backoff_secs * 2).min(30)`. -/
def backoffNext (b : Nat) : Nat := min (b * 2) 30

/-- Backoff counter after a successful subscription iteration:
the Ok arm of the listener loop runs `backoff_secs = 1`. -/
def backoffReset : Nat := 1

/-- Wall-clock seconds slept inside the degraded polling loop of one failed
cycle: the code computes `d = backoff_secs.min(30)`, `steps = (d / 2).max(1)`
and sleeps 2 seconds per step (poll time itself not counted). -/
def degradedDelaySecs (b : Nat) : Nat := 2 * max (min b 30 / 2) 1

/-- Backoff counter in force for the (n+1)-st consecutive failed cycle,
starting from the initial value 1. -/
def backoffSeq : Nat → Nat
  | 0 => 1
  | n + 1 => backoffNext (backoffSeq n)

-- ---------------------------------------------------------------------------
-- Client token bucket (rate.rs); f64 modelled by exact rationals
-- ---------------------------------------------------------------------------

/-- Tolerance constant used by try_consume (the literal 1e-9 in the source). -/
def tbEps : ℚ := 1 / 1000000000

structure TokenBucket where
  capacity : ℚ
  tokens : ℚ
  rate_per_sec : ℚ
  last : ℚ
  deriving Repr, DecidableEq

/-- TokenBucket::new: capacity and initial tokens are the per-minute rate,
refill rate is rate/60 per second. The creation instant is passed explicitly
(the code reads Instant::now()). -/
def TokenBucket.new (rate_per_min : ℕ) (now : ℚ) : TokenBucket :=
  { capacity := (rate_per_min : ℚ)
    tokens := (rate_per_min : ℚ)
    rate_per_sec := (rate_per_min : ℚ) / 60
    last := now }

/-- TokenBucket::refill: lazy refill from elapsed wall-clock time;
`saturating_duration_since` clamps negative elapsed time to zero, and the
token count is capped at capacity. -/
def TokenBucket.refill (b : TokenBucket) (now : ℚ) : TokenBucket :=
  let dt := max (now - b.last) 0
  let add := b.rate_per_sec * dt
  { b with tokens := min (b.tokens + add) b.capacity, last := now }

/-- TokenBucket::try_consume: refill, then consume `n` tokens when
`tokens + 1e-9 >= n`, otherwise fail leaving the refilled state. -/
def TokenBucket.try_consume (b : TokenBucket) (now : ℚ) (n : ℚ) : Bool × TokenBucket :=
  let b := b.refill now
  if n ≤ b.tokens + tbEps then (true, { b with tokens := b.tokens - n })
  else (false, b)

/-- TokenBucket::peek_tokens: refill and report the token count. -/
def TokenBucket.peek_tokens (b : TokenBucket) (now : ℚ) : ℚ × TokenBucket :=
  let b := b.refill now
  (b.tokens, b)

/-- Iterate try_consume of one token k times at a fixed instant. -/
def consumeN (now : ℚ) (b : TokenBucket) : ℕ → TokenBucket
  | 0 => b
  | k + 1 => (TokenBucket.try_consume (consumeN now b k) now 1).2

-- ---------------------------------------------------------------------------
-- Realtime events and notification payloads (realtime.rs)
-- ---------------------------------------------------------------------------

/-- Normalized realtime event (realtime.rs, Event). -/
inductive Event where
  | message (id : Int) (room_id : Int)
  deriving Repr, DecidableEq

/-- JSON values as serde_json sees them, at the granularity the payload
schema distinguishes: strings, integer numbers, non-integer numbers, and the
remaining shapes. -/
inductive Json where
  | str (s : String)
  | int (n : Int)
  | num
  | bool (b : Bool)
  | null
  | arr (elems : List Json)
  | obj (fields : List (String × Json))

def i64Min : Int := -(2 ^ 63)
def i64Max : Int := 2 ^ 63 - 1
def inI64 (n : Int) : Bool := decide (i64Min ≤ n) && decide (n ≤ i64Max)

/-- NotifyPayload (realtime.rs): the message-type tag is serialized under the
key "t" (`#[serde(rename = "t")]`), alongside room_id and id as i64. -/
structure NotifyPayload where
  t : String
  room_id : Int
  id : Int
  deriving Repr, DecidableEq

/-- Field loop of the derived serde Deserialize for NotifyPayload: fields are
consumed in order, a duplicate known field or a type/range mismatch is an
error, unknown fields are skipped (serde's default), and all three fields
must be present at the end. -/
def payloadFields : List (String × Json) → Option String → Option Int → Option Int →
    Option NotifyPayload
  | [], some t, some rid, some i => some ⟨t, rid, i⟩
  | [], _, _, _ => none
  | (k, v) :: rest, tAcc, ridAcc, idAcc =>
    if k = "t" then
      match tAcc, v with
      | none, .str sv => payloadFields rest (some sv) ridAcc idAcc
      | _, _ => none
    else if k = "room_id" then
      match ridAcc, v with
      | none, .int n => if inI64 n then payloadFields rest tAcc (some n) idAcc else none
      | _, _ => none
    else if k = "id" then
      match idAcc, v with
      | none, .int n => if inI64 n then payloadFields rest tAcc ridAcc (some n) else none
      | _, _ => none
    else payloadFields rest tAcc ridAcc idAcc

/-- serde_json::from_str::<NotifyPayload> on an already-parsed JSON value:
only an object can deserialize into the struct. -/
def parseNotifyPayload (j : Json) : Option NotifyPayload :=
  match j with
  | .obj fields => payloadFields fields none none none
  | _ => none

/-- Handling of one received notification inside run_once (realtime.rs):
a parse failure is silently dropped (`if let Ok(p)`), a tag other than
"msg" is silently dropped, and a "msg" payload is forwarded as an event. -/
def handleNotification (j : Json) : Option Event :=
  match parseNotifyPayload j with
  | some p => if p.t = "msg" then some (.message p.id p.room_id) else none
  | none => none

-- ---------------------------------------------------------------------------
-- The bounded event queue between notifier and render loop
-- ---------------------------------------------------------------------------

/-- Capacity of the realtime event queue created in ui.rs:
`mpsc::channel::<realtime::Event>(128)`. -/
def channelCapacity : ℕ := 128

/-- Outcome of one `tx.send(ev).await` as invoked in run_once and poll_once:
a tokio bounded mpsc send enqueues at the back when the queue has space and
otherwise suspends the sending task until space frees (it never drops a
queued element). `waits` is that suspended state. -/
inductive SendResult where
  | sent (queue : List Event)
  | waits
  deriving Repr, DecidableEq

def mpscSendAwait (cap : ℕ) (queue : List Event) (e : Event) : SendResult :=
  if queue.length < cap then .sent (queue ++ [e]) else .waits

/-- Modelled from the spec, for comparison only: the non-blocking send the
spec describes, where a full queue drops the oldest queued event and the new
event is enqueued immediately. -/
def specDropOldestSend (cap : ℕ) (queue : List Event) (e : Event) : List Event :=
  if queue.length < cap then queue ++ [e] else queue.drop 1 ++ [e]

/-- Joint history of the single-producer/single-consumer queue: the current
buffer, everything the consumer has drained, and everything the producer's
sends have enqueued. -/
structure ChanState where
  buf : List Event
  consumed : List Event
  accepted : List Event
  deriving Repr, DecidableEq

/-- Transitions of the code's channel: a send completes only when the buffer
is below capacity (otherwise the producer stays suspended and no transition
happens), and the consumer pops from the front. -/
inductive ChanStep (cap : ℕ) : ChanState → ChanState → Prop
  | send (s : ChanState) (e : Event) (h : s.buf.length < cap) :
      ChanStep cap s ⟨s.buf ++ [e], s.consumed, s.accepted ++ [e]⟩
  | recv (s : ChanState) (e : Event) (rest : List Event) (h : s.buf = e :: rest) :
      ChanStep cap s ⟨rest, s.consumed ++ [e], s.accepted⟩

def chanInit : ChanState := ⟨[], [], []⟩

def ChanReachable (cap : ℕ) (s : ChanState) : Prop :=
  Relation.ReflTransGen (ChanStep cap) chanInit s

-- ---------------------------------------------------------------------------
-- Store rows (data.rs structs; timestamp columns that no claim touches are
-- omitted from UserRow)
-- ---------------------------------------------------------------------------

structure UserRow where
  id : Int
  fingerprint_sha256 : String
  pubkey_type : String
  handle : String
  deriving Repr, DecidableEq

structure RoomRow where
  id : Int
  name : String
  created_by : Int
  is_deleted : Bool
  deriving Repr, DecidableEq

structure MemberRow where
  room_id : Int
  user_id : Int
  last_joined_at : Int
  deriving Repr, DecidableEq

structure MsgRow where
  id : Int
  room_id : Int
  user_id : Int
  body : String
  created_at : Int
  deleted_at : Option Int
  deriving Repr, DecidableEq

structure MessageView where
  id : Int
  room_id : Int
  user_id : Int
  user_handle : String
  body : String
  created_at : Int
  deriving Repr, DecidableEq

structure NameChange where
  user_id : Int
  old_handle : String
  new_handle : String
  deriving Repr, DecidableEq

/-- The relational store: tables plus the serial counters, the SQL clock
now() in integer seconds, and the BBS_RATE_PER_MIN limit read inside
insert_message (default 10). -/
structure Store where
  users : List UserRow
  rooms : List RoomRow
  members : List MemberRow
  messages : List MsgRow
  name_changes : List NameChange
  nextMsgId : Int
  nextRoomId : Int
  now : Int
  rateLimit : Int
  deriving Repr, DecidableEq

-- ---------------------------------------------------------------------------
-- Identity resolver (data.rs, upsert_user_by_fp)
-- ---------------------------------------------------------------------------

/-- Result of one SQL insert into users under its two unique constraints
(fingerprint_sha256 and handle). A violation of either surfaces as SQLSTATE
23505, which the caller cannot tell apart. -/
inductive InsertUserResult where
  | ok (u : UserRow) (db : List UserRow)
  | uniqueViolation

def insertUser (db : List UserRow) (nextId : Int) (fp kt handle : String) : InsertUserResult :=
  if db.any (fun u => u.fingerprint_sha256 == fp) || db.any (fun u => u.handle == handle) then
    .uniqueViolation
  else
    .ok ⟨nextId, fp, kt, handle⟩ (db ++ [⟨nextId, fp, kt, handle⟩])

/-- The insert-retry loop of upsert_user_by_fp (data.rs): on any unique
violation it generates a new handle and retries, up to 10 attempts, never
re-reading the users table. The source counts `tries` upward while
`tries < 10`; here `remaining = 10 - tries` counts down so the recursion is
structural. `gen` supplies random_handle's output for each attempt. -/
def insertLoop (db : List UserRow) (nextId : Int) (fp kt : String) (gen : ℕ → String) :
    ℕ → ℕ → Except String (UserRow × List UserRow)
  | _, 0 => .error "failed to create unique handle after retries"
  | tries, remaining + 1 =>
    match insertUser db nextId fp kt (gen tries) with
    | .ok u db2 => .ok (u, db2)
    | .uniqueViolation => insertLoop db nextId fp kt gen (tries + 1) remaining

/-- upsert_user_by_fp (data.rs): select by fingerprint first (the last-seen
touch is a timestamp refresh on the found row, not modelled); insert with
handle-collision retries otherwise. -/
def upsert_user_by_fp (db : List UserRow) (nextId : Int) (fp kt : String) (gen : ℕ → String) :
    Except String (UserRow × List UserRow) :=
  match db.find? (fun u => u.fingerprint_sha256 == fp) with
  | some u => .ok (u, db)
  | none => insertLoop db nextId fp kt gen 0 10

-- ---------------------------------------------------------------------------
-- Data layer over the Store (data.rs)
-- ---------------------------------------------------------------------------

/-- insert_message (data.rs): the CTE counts the author's messages with
created_at inside the trailing 60 seconds; the insert runs only when that
count is below the limit; fetch_optional returning no row is surfaced as the
rate_limited error, leaving the store untouched. -/
def insert_message (s : Store) (room_id user_id : Int) (body : String) :
    Except String MsgRow × Store :=
  let recent := s.messages.countP (fun m => m.user_id == user_id && decide (s.now - 60 < m.created_at))
  if (recent : Int) < s.rateLimit then
    let m : MsgRow := ⟨s.nextMsgId, room_id, user_id, body, s.now, none⟩
    (.ok m, { s with messages := s.messages ++ [m], nextMsgId := s.nextMsgId + 1 })
  else (.error "rate_limited", s)

/-- Stable insertion step for sorting by an integer key in descending order
(the model of SQL `order by key desc`; SQL leaves ties unordered, the model
keeps them in table order). -/
def insertDescBy {α : Type} (key : α → Int) (x : α) : List α → List α
  | [] => [x]
  | y :: ys => if key y < key x then x :: y :: ys else y :: insertDescBy key x ys

def sortDescBy {α : Type} (key : α → Int) : List α → List α
  | [] => []
  | x :: xs => insertDescBy key x (sortDescBy key xs)

/-- recent_messages_view (data.rs): non-deleted messages of the room joined
with their author's handle, newest limit rows, returned oldest-first (the
Rust code reverses the descending query result). -/
def recent_messages_view (s : Store) (room_id : Int) (limit : ℕ) : List MessageView :=
  let rows := s.messages.filter (fun m => m.room_id == room_id && m.deleted_at.isNone)
  let rows := (sortDescBy (fun m => m.created_at) rows).take limit
  (rows.filterMap (fun m =>
    (s.users.find? (fun u => u.id == m.user_id)).map
      (fun u => MessageView.mk m.id m.room_id m.user_id u.handle m.body m.created_at))).reverse

/-- message_view_by_id (data.rs): the message row (deleted or not) joined
with its author's handle. -/
def message_view_by_id (s : Store) (id : Int) : Option MessageView :=
  (s.messages.find? (fun m => m.id == id)).bind (fun m =>
    (s.users.find? (fun u => u.id == m.user_id)).map
      (fun u => MessageView.mk m.id m.room_id m.user_id u.handle m.body m.created_at))

/-- ensure_room_exists (data.rs): select by name; a found soft-deleted room
is the room_deleted error, a found live room is returned unchanged, an
absent name is inserted. -/
def ensure_room_exists (s : Store) (name : String) (created_by : Int) :
    Except String RoomRow × Store :=
  match s.rooms.find? (fun r => r.name == name) with
  | some r => if r.is_deleted then (.error "room_deleted", s) else (.ok r, s)
  | none =>
    let r : RoomRow := ⟨s.nextRoomId, name, created_by, false⟩
    (.ok r, { s with rooms := s.rooms ++ [r], nextRoomId := s.nextRoomId + 1 })

/-- join_room (data.rs): membership upsert; on conflict the last_joined_at
timestamp is refreshed. -/
def join_room (s : Store) (room_id user_id : Int) : Store :=
  if s.members.any (fun mr => mr.room_id == room_id && mr.user_id == user_id) then
    { s with members := s.members.map (fun mr =>
        if mr.room_id == room_id && mr.user_id == user_id then
          { mr with last_joined_at := s.now } else mr) }
  else { s with members := s.members ++ [⟨room_id, user_id, s.now⟩] }

/-- Modelled from the spec: data::leave_room is called from ui.rs and from
the integration test but its definition is not among the provided sources.
The spec lists it as delete-membership(room, user) → bool; the boolean
reports whether a membership row was removed. -/
def leave_room (s : Store) (room_id user_id : Int) : Bool × Store :=
  let keep := s.members.filter (fun mr => !(mr.room_id == room_id && mr.user_id == user_id))
  (decide (keep.length < s.members.length), { s with members := keep })

/-- soft_delete_room_by_creator (data.rs): conditional update gated on name,
creator and not-yet-deleted; the boolean is rows_affected > 0. -/
def soft_delete_room_by_creator (s : Store) (name : String) (creator_id : Int) :
    Bool × Store :=
  let hit := s.rooms.any (fun r => r.name == name && r.created_by == creator_id && !r.is_deleted)
  (hit, { s with rooms := s.rooms.map (fun r =>
      if r.name == name && r.created_by == creator_id && !r.is_deleted then
        { r with is_deleted := true } else r) })

structure RoomSummary where
  id : Int
  name : String
  deriving Repr, DecidableEq

/-- list_joined_rooms (data.rs): the user's memberships joined with their
non-deleted rooms, ordered by last_joined_at descending. -/
def list_joined_rooms (s : Store) (user_id : Int) : List RoomSummary :=
  let mine := sortDescBy (fun mr => mr.last_joined_at)
    (s.members.filter (fun mr => mr.user_id == user_id))
  mine.filterMap (fun mr =>
    (s.rooms.find? (fun r => r.id == mr.room_id)).bind (fun r =>
      if r.is_deleted then none else some (RoomSummary.mk r.id r.name)))

structure RoomTimeSummary where
  id : Int
  name : String
  last_joined_at : Int
  deriving Repr, DecidableEq

/-- Modelled from the spec: data::list_joined_rooms_with_times is called by
the /rooms command but its definition is not among the provided sources. The
spec lists list-joined-rooms(user) ordered by last-joined descending; this
variant also carries the join timestamp that ui.rs formats. -/
def list_joined_rooms_with_times (s : Store) (user_id : Int) : List RoomTimeSummary :=
  let mine := sortDescBy (fun mr => mr.last_joined_at)
    (s.members.filter (fun mr => mr.user_id == user_id))
  mine.filterMap (fun mr =>
    (s.rooms.find? (fun r => r.id == mr.room_id)).bind (fun r =>
      if r.is_deleted then none else some (RoomTimeSummary.mk r.id r.name mr.last_joined_at)))

structure WhoSummary where
  id : Int
  handle : String
  deriving Repr, DecidableEq

/-- list_recent_members (data.rs): room members by last_joined_at descending,
limited, joined with user handles. -/
def list_recent_members (s : Store) (room_id : Int) (limit : ℕ) : List WhoSummary :=
  let mems := (sortDescBy (fun mr => mr.last_joined_at)
    (s.members.filter (fun mr => mr.room_id == room_id))).take limit
  mems.filterMap (fun mr =>
    (s.users.find? (fun u => u.id == mr.user_id)).map (fun u => WhoSummary.mk u.id u.handle))

/-- Database errors whose SQLSTATE the UI inspects: 23505 unique violations
versus everything else. -/
inductive DbErr where
  | uniqueViolation
  | other (e : String)
  deriving Repr, DecidableEq

/-- change_handle (data.rs): one transaction that locks the row, updates the
handle and inserts the audit row; a unique violation on the new handle means
another user already carries it. -/
def change_handle (s : Store) (user_id : Int) (new_handle : String) :
    Except DbErr UserRow × Store :=
  match s.users.find? (fun u => u.id == user_id) with
  | none => (.error (.other "user not found"), s)
  | some old =>
    if s.users.any (fun u => u.handle == new_handle && u.id != user_id) then
      (.error .uniqueViolation, s)
    else
      let updated := { old with handle := new_handle }
      (.ok updated,
        { s with
            users := s.users.map (fun u => if u.id == user_id then updated else u)
            name_changes := s.name_changes ++ [⟨user_id, old.handle, new_handle⟩] })

-- ---------------------------------------------------------------------------
-- Pure helpers (util.rs, nick.rs, rooms.rs, input.rs)
-- ---------------------------------------------------------------------------

/-- Rust str::len counts UTF-8 bytes. -/
def rustStrLen (s : String) : ℕ := s.data.foldl (fun n c => n + c.utf8Size) 0

/-- ASCII whitespace as recognized by the trims the claims exercise (Rust
str::trim accepts all Unicode White_Space; the non-ASCII code points are not
exercised by this code's inputs). -/
def wsChar (c : Char) : Bool := c == ' ' || c == '\t' || c == '\n' || c == '\r'

/-- Rust str::trim. -/
def rustTrim (s : String) : String :=
  String.mk (((s.data.dropWhile wsChar).reverse.dropWhile wsChar).reverse)

/-- Join strings with a separator (str::join / the display of joined lists). -/
def strJoin (sep : String) : List String → String
  | [] => ""
  | [x] => x
  | x :: xs => x ++ sep ++ strJoin sep xs

/-- Split a character list at the first occurrence of `sep`: the part before
it and, when present, the remainder after it. -/
def splitFirst (sep : Char) : List Char → List Char × Option (List Char)
  | [] => ([], none)
  | c :: cs =>
    if c == sep then ([], some cs)
    else
      let p := splitFirst sep cs
      (c :: p.1, p.2)

/-- Rust char::is_control: the Unicode Cc category, U+0000 to U+001F and
U+007F to U+009F. -/
def rustIsControl (c : Char) : Bool := c.val < 32 || (127 ≤ c.val && c.val ≤ 159)

/-- Control-character strip shared by normalize_message (util.rs) and
sanitize (ui.rs): keep everything that is not a control character, plus
newline and tab. -/
def stripControls (s : String) : String :=
  String.mk (s.data.filter (fun c => !rustIsControl c || c == '\n' || c == '\t'))

/-- normalize_message (util.rs): NFKC normalization followed by the control
strip. The NFKC pass lives in the external unicode_normalization crate and
is passed in as a function. -/
def normalize_message (nfkc : String → String) (input : String) : String :=
  stripControls (nfkc input)

def nickChar (c : Char) : Bool :=
  (decide ('a' ≤ c) && decide (c ≤ 'z')) || (decide ('0' ≤ c) && decide (c ≤ '9')) ||
    c == '_' || c == '-'

/-- valid_nick (nick.rs): trimmed length between 2 and 16 bytes, lowercase
alphanumerics plus underscore and hyphen. -/
def valid_nick (name : String) : Bool :=
  let s := rustTrim name
  if rustStrLen s < 2 || rustStrLen s > 16 then false
  else s.data.all nickChar

/-- valid_room_name (rooms.rs): trimmed, non-empty, at most 24 bytes, same
character set as nicks. -/
def valid_room_name (name : String) : Bool :=
  let s := rustTrim name
  if rustStrLen s == 0 || rustStrLen s > 24 then false
  else s.data.all nickChar

/-- Command (input.rs). -/
inductive Command where
  | Help
  | Quit
  | Me (arg : String)
  | Nick (arg : String)
  | Join (arg : String)
  | Leave (arg : Option String)
  | Rooms
  | Who (arg : Option String)
  | RoomDel (arg : String)
  deriving Repr, DecidableEq

/-- splitn(2, one-space) as used by parse_command: the text before the first
space and everything after it (empty when there is no space). -/
def splitn2 (s : String) : String × String :=
  let p := splitFirst ' ' s.data
  (String.mk p.1, String.mk (p.2.getD []))

/-- parse_command (input.rs): slash commands with aliases; any unknown slash
command falls back to Help; non-slash input is not a command. -/
def parse_command (s : String) : Option Command :=
  let s := rustTrim s
  if s.data.head? != some '/' then none
  else
    let rest := String.mk (s.data.drop 1)
    let parts := splitn2 rest
    let cmd := parts.1
    let arg := rustTrim parts.2
    match cmd with
    | "help" | "h" | "?" => some .Help
    | "quit" | "q" | "exit" => some .Quit
    | "me" => some (.Me arg)
    | "nick" | "name" => some (.Nick arg)
    | "join" => some (.Join arg)
    | "leave" => some (.Leave (if arg == "" then none else some arg))
    | "rooms" => some .Rooms
    | "who" => some (.Who (if arg == "" then none else some arg))
    | "roomdel" | "rdel" => some (.RoomDel arg)
    | _ => some .Help

-- ---------------------------------------------------------------------------
-- Session Coordinator state and handlers (ui.rs)
-- ---------------------------------------------------------------------------

/-- Sidebar entry (ui.rs, RoomEntry). -/
structure RoomEntry where
  id : Int
  name : String
  unread : ℕ
  deriving Repr, DecidableEq

/-- App (ui.rs): the in-memory session state. The HashSet of seen ids is a
list carrying set semantics via seenInsert; UiOpts is inlined as the
msg_max_len and history_load fields (fp_short only feeds the status bar). -/
structure App where
  user : UserRow
  room : RoomRow
  input : String
  status : String
  messages : List MessageView
  seen_ids : List Int
  rooms : List RoomEntry
  running : Bool
  bucket : TokenBucket
  msg_max_len : ℕ
  history_load : ℕ
  deriving Repr, DecidableEq

/-- HashSet::insert on the seen-id set. -/
def seenInsert (ids : List Int) (id : Int) : List Int :=
  if ids.contains id then ids else ids ++ [id]

/-- The local append performed after a successful own write and for an
unseen incoming event: mark the id seen and push the view. -/
def local_append (a : App) (v : MessageView) : App :=
  { a with seen_ids := seenInsert a.seen_ids v.id, messages := a.messages ++ [v] }

/-- The reload performed on room entry (Join, Tab, Leave-current): set the
current room, load its recent history and rebuild the seen-id set from it. -/
def reload_view (a : App) (room : RoomRow) (msgs : List MessageView) : App :=
  { a with room := room, messages := msgs,
           seen_ids := msgs.foldl (fun acc m => seenInsert acc m.id) [] }

/-- Increment the unread counter of the first sidebar entry with the given
id, if any (`iter_mut().find()` followed by saturating_add). -/
def bumpUnreadFirst : List RoomEntry → Int → List RoomEntry
  | [], _ => []
  | r :: rs, id =>
    if r.id == id then { r with unread := r.unread + 1 } :: rs
    else r :: bumpUnreadFirst rs id

/-- Processing of one drained realtime event in ui::run: for the current
room fetch the view and append when unseen; for another sidebar room bump
its unread counter; otherwise ignore. -/
def apply_event (a : App) (s : Store) : Event → App
  | .message id room_id =>
    if room_id == a.room.id then
      match message_view_by_id s id with
      | some v => if a.seen_ids.contains v.id then a else local_append a v
      | none => a
    else { a with rooms := bumpUnreadFirst a.rooms room_id }

/-- Result of one key or command handler: ok mirrors Ok(()), fatal mirrors
an Err propagated by the question-mark operator, which ends the ui::run
event loop. The App and Store at the moment of the error are carried for
inspection. -/
inductive StepResult where
  | ok (a : App) (s : Store)
  | fatal (e : String) (a : App) (s : Store)
  deriving Repr, DecidableEq

/-- Remove the first sidebar entry with the given id, if any. -/
def removeById (rooms : List RoomEntry) (id : Int) : List RoomEntry :=
  match rooms.findIdx? (fun r => r.id == id) with
  | some i => rooms.eraseIdx i
  | none => rooms

/-- The cyclic search for the next current room in the Leave handler:
first index after idx (wrapping) whose entry is not the leaving room. -/
def findCandidate (rooms : List RoomEntry) (idx : ℕ) (leavingId : Int) : Option Int :=
  (List.range rooms.length).findSome? (fun off =>
    match rooms[(idx + 1 + off) % rooms.length]? with
    | some r => if r.id == leavingId then none else some r.id
    | none => none)

/-- handle_command (ui.rs). Store-visiting arms thread the Store; fatal
results are errors the question-mark operator would propagate out of
handle_key and end the session. -/
def handle_command (nfkc : String → String) (a : App) (s : Store) : Command → StepResult
  | .Help => .ok { a with status := "/help /quit /nick /join /rooms /who /me" } s
  | .Quit => .ok { a with running := false } s
  | .Me action =>
    if rustTrim action == "" then .ok { a with status := "usage: /me <action>" } s
    else
      let body := "* " ++ a.user.handle ++ " " ++ normalize_message nfkc (rustTrim action)
      match insert_message s a.room.id a.user.id body with
      | (.ok m, s1) =>
        let mv : MessageView := ⟨m.id, m.room_id, m.user_id, a.user.handle, m.body, m.created_at⟩
        .ok { local_append a mv with status := "me" } s1
      | (.error e, s1) => .fatal e a s1
  | .Nick newRaw =>
    let new := rustTrim newRaw
    if !valid_nick new then
      .ok { a with status := "invalid nick [a-z0-9_-]\x7b2,16\x7d" } s
    else
      match change_handle s a.user.id new with
      | (.ok updated, s1) => .ok { a with user := updated, status := "nick changed" } s1
      | (.error .uniqueViolation, s1) => .ok { a with status := "nick taken" } s1
      | (.error (.other e), s1) => .ok { a with status := "nick error: " ++ e } s1
  | .Join nameRaw =>
    let name := rustTrim nameRaw
    if !valid_room_name name then
      .ok { a with status := "invalid room [a-z0-9_-]\x7b1,24\x7d" } s
    else
      match ensure_room_exists s name a.user.id with
      | (.error e, s1) =>
        if e == "room_deleted" then .ok { a with status := "room is deleted" } s1
        else .fatal e a s1
      | (.ok room, s1) =>
        let s2 := join_room s1 room.id a.user.id
        let a1 := reload_view a room (recent_messages_view s2 room.id a.history_load)
        let rooms1 := a1.rooms.map (fun r => if r.id == room.id then { r with unread := 0 } else r)
        let rooms2 :=
          if rooms1.any (fun r => r.id == room.id) then rooms1
          else rooms1 ++ [RoomEntry.mk room.id room.name 0]
        .ok { a1 with rooms := rooms2, status := "joined" } s2
  | .RoomDel nameRaw =>
    let name := rustTrim nameRaw
    if !valid_room_name name then
      .ok { a with status := "usage: /roomdel <name> (a-z0-9_-)\x7b1,24\x7d" } s
    else
      match soft_delete_room_by_creator s name a.user.id with
      | (true, s1) =>
        let list := list_joined_rooms s1 a.user.id
        .ok { a with status := "room \x27" ++ name ++ "\x27 deleted",
                     rooms := list.map (fun r => RoomEntry.mk r.id r.name 0) } s1
      | (false, s1) => .ok { a with status := "not room creator or already deleted" } s1
  | .Leave nameOpt =>
    let targetOwned := nameOpt.getD a.room.name
    let target := rustTrim targetOwned
    if target == "" then .ok { a with status := "usage: /leave [room]" } s
    else
      match a.rooms.findIdx? (fun r => r.name == target) with
      | none => .ok { a with status := "room not in sidebar" } s
      | some idx =>
        match a.rooms[idx]? with
        | none => .ok a s
        | some entry =>
          let leavingId := entry.id
          if leavingId == a.room.id then
            if a.rooms.length ≤ 1 then
              .ok { a with status := "cannot leave the last room" } s
            else
              let s1 := (leave_room s leavingId a.user.id).2
              match findCandidate a.rooms idx leavingId with
              | some nextId =>
                match a.rooms.find? (fun r => r.id == nextId) with
                | some re =>
                  match ensure_room_exists s1 re.name a.user.id with
                  | (.error e, s2) => .fatal e a s2
                  | (.ok room, s2) =>
                    let s3 := join_room s2 room.id a.user.id
                    let a1 := reload_view a room (recent_messages_view s3 room.id a.history_load)
                    .ok { a1 with rooms := removeById a1.rooms leavingId,
                                  status := "left \x27" ++ target ++ "\x27" } s3
                | none =>
                  .ok { a with rooms := removeById a.rooms leavingId,
                               status := "left \x27" ++ target ++ "\x27" } s1
              | none =>
                .ok { a with rooms := removeById a.rooms leavingId,
                             status := "left \x27" ++ target ++ "\x27" } s1
          else
            let s1 := (leave_room s leavingId a.user.id).2
            .ok { a with rooms := a.rooms.eraseIdx idx,
                         status := "left \x27" ++ target ++ "\x27" } s1
  | .Rooms =>
    let list := list_joined_rooms_with_times s a.user.id
    if list.isEmpty then .ok { a with status := "rooms: (none)" } s
    else
      let items := list.map (fun r =>
        let mark := if r.id == a.room.id then "> " else ""
        mark ++ r.name ++ " [" ++ toString r.last_joined_at ++ "]")
      .ok { a with status := "rooms: " ++ strJoin ", " items } s
  | .Who _ =>
    let who := list_recent_members s a.room.id 50
    .ok { a with status := "who: " ++ strJoin ", " (who.map (fun u => u.handle)) } s

/-- Keyboard events at the granularity handle_key distinguishes. -/
inductive Key where
  | ctrlC
  | esc
  | backspace
  | enter
  | char (c : Char)
  | tab
  | other
  deriving Repr, DecidableEq

/-- Rust String::pop. -/
def strPop (s : String) : String := String.mk s.data.dropLast

/-- handle_key (ui.rs). `tnow` is the wall-clock instant Instant::now()
would report inside try_consume. -/
def handle_key (nfkc : String → String) (tnow : ℚ) (a : App) (s : Store) : Key → StepResult
  | .ctrlC => .ok { a with running := false } s
  | .esc => .ok { a with input := "" } s
  | .backspace => .ok { a with input := strPop a.input } s
  | .char c => .ok { a with input := String.mk (a.input.data ++ [c]) } s
  | .other => .ok a s
  | .tab =>
    if a.rooms.isEmpty then .ok a s
    else
      match a.rooms.findIdx? (fun r => r.id == a.room.id) with
      | none => .ok a s
      | some idx =>
        match a.rooms[(idx + 1) % a.rooms.length]? with
        | none => .ok a s
        | some nextEntry =>
          let target := nextEntry.id
          match a.rooms.find? (fun r => r.id == target) with
          | none => .ok a s
          | some re =>
            match ensure_room_exists s re.name a.user.id with
            | (.error e, s1) => .fatal e a s1
            | (.ok room, s1) =>
              let s2 := join_room s1 room.id a.user.id
              let a1 := reload_view a room (recent_messages_view s2 room.id a.history_load)
              let a2 := { a1 with rooms := a1.rooms.map (fun (r : RoomEntry) =>
                if r.id == target then { r with unread := 0 } else r) }
              .ok { a2 with status := "joined " ++ room.name } s2
  | .enter =>
    let line := rustTrim a.input
    if line == "" then .ok { a with status := "empty", input := "" } s
    else
      match parse_command line with
      | some cmd =>
        match handle_command nfkc a s cmd with
        | .ok a1 s1 => .ok { a1 with input := "" } s1
        | .fatal e a1 s1 => .fatal e a1 s1
      | none =>
        if a.msg_max_len < rustStrLen line then .fatal "message too long" a s
        else
          let body := normalize_message nfkc line
          match a.bucket.try_consume tnow 1 with
          | (false, b1) =>
            .ok { a with bucket := b1, status := "rate limited (client)", input := "" } s
          | (true, b1) =>
            match insert_message s a.room.id a.user.id body with
            | (.error e, s1) =>
              if e == "rate_limited" then
                .ok { a with bucket := b1, status := "rate limited (server)" } s1
              else .fatal e { a with bucket := b1 } s1
            | (.ok m, s1) =>
              let mv : MessageView := ⟨m.id, m.room_id, m.user_id, a.user.handle, m.body, m.created_at⟩
              .ok { local_append { a with bucket := b1 } mv with status := "sent", input := "" } s1

-- ---------------------------------------------------------------------------
-- Server rate gate scenario (claim C6): limit+1 sends at given instants
-- ---------------------------------------------------------------------------

/-- Run k message writes for one author, the i-th at SQL time `t i`,
threading the store; collects the per-call results. -/
def sendTimes (s : Store) (rid uid : Int) (body : String) (t : ℕ → Int) :
    ℕ → Store × List (Except String MsgRow)
  | 0 => (s, [])
  | k + 1 =>
    let p := sendTimes s rid uid body t k
    let s2 := { p.1 with now := t k }
    let q := insert_message s2 rid uid body
    (q.2, p.2 ++ [q.1])

-- ---------------------------------------------------------------------------
-- Session steps touching the message list (claim C8)
-- ---------------------------------------------------------------------------

/-- The three kinds of mutation the session applies to its message list and
seen-id set: a drained notifier event, the local append after an own write
whose new serial id the session has never seen, and a history reload whose
rows (distinct database rows) carry distinct ids. -/
inductive UiStep : App → App → Prop
  | event (a : App) (s : Store) (ev : Event) : UiStep a (apply_event a s ev)
  | send (a : App) (v : MessageView) (h : a.seen_ids.contains v.id = false) :
      UiStep a (local_append a v)
  | reload (a : App) (room : RoomRow) (msgs : List MessageView)
      (h : (msgs.map (fun m => m.id)).Nodup) : UiStep a (reload_view a room msgs)

/-- The de-duplication invariant: message ids are pairwise distinct and every
listed message has been marked seen. -/
def DedupInv (a : App) : Prop :=
  (a.messages.map (fun m => m.id)).Nodup ∧ ∀ v ∈ a.messages, v.id ∈ a.seen_ids

/-- The i-th row produced by the rate-gate scenario: serial ids start at the
store's counter and the i-th call runs at SQL time `t i`. -/
def rateRow (s : Store) (rid uid : Int) (body : String) (t : ℕ → Int) (i : ℕ) : MsgRow :=
  ⟨s.nextMsgId + i, rid, uid, body, t i, none⟩

-- ---------------------------------------------------------------------------
-- Concrete fixtures used by the closed instances below
-- ---------------------------------------------------------------------------

/-- A users table as left by the winner of a first-contact race on
fingerprint "fp-A". -/
def raceDb : List UserRow := [⟨1, "fp-A", "ed25519", "usr-w1nn3r00"⟩]

/-- A deterministic stand-in for random_handle's stream of candidates. -/
def raceGen (n : ℕ) : String := "usr-h" ++ toString n

def aliceUser : UserRow := ⟨7, "fp-A", "ed25519", "alice"⟩

def lobbyRoom : RoomRow := ⟨1, "lobby", 7, false⟩

def devRoom : RoomRow := ⟨2, "dev", 7, false⟩

/-- A store with alice a member of lobby and dev, no messages, limit 10. -/
def baseStore : Store :=
  ⟨[aliceUser], [lobbyRoom, devRoom], [⟨1, 7, 0⟩, ⟨2, 7, 0⟩], [], [], 100, 3, 50, 10⟩

/-- A session in lobby holding an over-long pending input line
(6 bytes against a 5-byte maximum). -/
def longSendApp : App :=
  ⟨aliceUser, lobbyRoom, "aaaaaa", "/help for commands", [], [], [⟨1, "lobby", 0⟩], true,
    TokenBucket.new 10 0, 5, 50⟩

/-- A session whose configured maximum message length is zero, so that any
posted body exceeds it. -/
def meApp : App :=
  ⟨aliceUser, lobbyRoom, "", "/help for commands", [], [], [⟨1, "lobby", 0⟩], true,
    TokenBucket.new 10 0, 0, 50⟩

/-- A store whose rate limit is 2, for the limit-plus-one scenario. -/
def rateStore : Store :=
  ⟨[aliceUser], [lobbyRoom], [⟨1, 7, 0⟩], [], [], 100, 3, 0, 2⟩

/-- A session with lobby as the only joined room. -/
def lastRoomApp : App :=
  ⟨aliceUser, lobbyRoom, "", "ok", [], [], [⟨1, "lobby", 0⟩], true,
    TokenBucket.new 10 0, 500, 50⟩

/-- A session in lobby with dev also joined. -/
def twoRoomApp : App :=
  ⟨aliceUser, lobbyRoom, "", "ok", [], [], [⟨1, "lobby", 0⟩, ⟨2, "dev", 3⟩], true,
    TokenBucket.new 10 0, 500, 50⟩

/-- A freshly loaded empty session used by the de-duplication witness. -/
def dedupApp : App :=
  ⟨aliceUser, lobbyRoom, "", "ok", [], [], [⟨1, "lobby", 0⟩], true,
    TokenBucket.new 10 0, 500, 50⟩

/-- The view of a message alice just wrote into lobby. -/
def dedupView : MessageView := ⟨5, 1, 7, "alice", "hello", 40⟩

-- ===========================================================================
-- THEOREMS
-- ===========================================================================

-- ---------------------------------------------------------------------------
-- C1: notifier backoff
-- ---------------------------------------------------------------------------

lemma backoffSeq_ge_five (n : ℕ) (h : 5 ≤ n) : backoffSeq n = 30 := by
  induction n with
  | zero => omega
  | succ m ih =>
    rcases Nat.lt_or_ge m 5 with hm | hm
    · have hm4 : m = 4 := by omega
      subst hm4
      decide
    · show backoffNext (backoffSeq m) = 30
      rw [ih hm]
      decide

/-- C1 (counterexample): the retry delays do not follow 1,2,4,8,16,30,…
seconds; the very first degraded cycle already sleeps 2 seconds (one 2-second
poll step), because the slept time is 2·max(1, ⌊backoff/2⌋), not the backoff
counter itself. -/
theorem notifier_backoff_counterexample :
    degradedDelaySecs (backoffSeq 0) = 2
    ∧ (List.range 7).map (fun k => degradedDelaySecs (backoffSeq k))
        ≠ [1, 2, 4, 8, 16, 30, 30] := by
  decide

/-- C1 (amended): the backoff counter follows 1,2,4,8,16,30,30,… (doubling,
capped at 30) and resets to its minimum of 1 after any successful
subscription, while the wall-clock delay of the n-th failed cycle is
2·max(1, ⌊min(counter,30)/2⌋) seconds, i.e. 2,2,4,8,16,30,30,…. -/
theorem notifier_backoff_corrected (n : ℕ) (h : 5 ≤ n) :
    (List.range 7).map backoffSeq = [1, 2, 4, 8, 16, 30, 30]
    ∧ backoffSeq n = 30
    ∧ (List.range 7).map (fun k => degradedDelaySecs (backoffSeq k))
        = [2, 2, 4, 8, 16, 30, 30]
    ∧ backoffReset = 1 :=
  ⟨by decide, backoffSeq_ge_five n h, by decide, rfl⟩

/-- C1 witness: the amended statement at n = 7. -/
theorem notifier_backoff_corrected_witness :
    (List.range 7).map backoffSeq = [1, 2, 4, 8, 16, 30, 30]
    ∧ backoffSeq 7 = 30
    ∧ (List.range 7).map (fun k => degradedDelaySecs (backoffSeq k))
        = [2, 2, 4, 8, 16, 30, 30]
    ∧ backoffReset = 1 :=
  notifier_backoff_corrected 7 (by decide)

-- ---------------------------------------------------------------------------
-- C7: token bucket
-- ---------------------------------------------------------------------------

lemma consumeN_fresh (r : ℕ) (t0 : ℚ) (k : ℕ) (hk : k ≤ r) :
    consumeN t0 (TokenBucket.new r t0) k =
      { capacity := (r : ℚ), tokens := (r : ℚ) - (k : ℚ),
        rate_per_sec := (r : ℚ) / 60, last := t0 } := by
  induction k with
  | zero => simp [consumeN, TokenBucket.new]
  | succ k ih =>
    have hk' : k ≤ r := Nat.le_of_succ_le hk
    have hkr : (k : ℚ) + 1 ≤ (r : ℚ) := by exact_mod_cast hk
    rw [consumeN, ih hk']
    have hmin : min ((r : ℚ) - (k : ℚ) + (r : ℚ) / 60 * max (t0 - t0) 0) (r : ℚ)
        = (r : ℚ) - (k : ℚ) := by
      rw [sub_self t0, max_eq_right le_rfl, mul_zero, add_zero]
      have hk0 : (0 : ℚ) ≤ (k : ℚ) := by positivity
      exact min_eq_left (by linarith)
    have hcond : (1 : ℚ) ≤ (r : ℚ) - (k : ℚ) + tbEps := by
      have heps : (0 : ℚ) < tbEps := by norm_num [tbEps]
      linarith
    simp only [TokenBucket.try_consume, TokenBucket.refill, hmin, if_pos hcond]
    push_cast
    ring_nf

/-- C7: with capacity = rate ≥ 1, after consuming all capacity tokens with no
elapsed time the next consume fails, after waiting 60/rate seconds exactly
one token is back (so at least one is available and a consume succeeds), and
refill is lazy, linear at rate/60 tokens per elapsed second, capped at
capacity. -/
theorem token_bucket_behaviour (r : ℕ) (hr : 1 ≤ r) (t0 : ℚ) :
    (((consumeN t0 (TokenBucket.new r t0) r).try_consume t0 1).1 = false)
    ∧ (((consumeN t0 (TokenBucket.new r t0) r).peek_tokens (t0 + 60 / (r : ℚ))).1 = 1)
    ∧ (((consumeN t0 (TokenBucket.new r t0) r).try_consume (t0 + 60 / (r : ℚ)) 1).1 = true)
    ∧ (∀ (b : TokenBucket) (now : ℚ),
        (b.refill now).tokens = min (b.tokens + b.rate_per_sec * max (now - b.last) 0) b.capacity)
    ∧ (TokenBucket.new r t0).rate_per_sec = (r : ℚ) / 60
    ∧ (TokenBucket.new r t0).capacity = (r : ℚ)
    ∧ (TokenBucket.new r t0).tokens = (r : ℚ) := by
  have hrQ : (1 : ℚ) ≤ (r : ℚ) := by exact_mod_cast hr
  have hr0 : (r : ℚ) ≠ 0 := by linarith
  have h0 : consumeN t0 (TokenBucket.new r t0) r =
      { capacity := (r : ℚ), tokens := 0, rate_per_sec := (r : ℚ) / 60, last := t0 } := by
    rw [consumeN_fresh r t0 r le_rfl]
    norm_num
  have hdt : max (t0 + 60 / (r : ℚ) - t0) 0 = 60 / (r : ℚ) := by
    have : (0 : ℚ) < 60 / (r : ℚ) := by positivity
    rw [add_sub_cancel_left]
    exact max_eq_left (le_of_lt this)
  have hone : (r : ℚ) / 60 * (60 / (r : ℚ)) = 1 := by
    field_simp
  refine ⟨?_, ?_, ?_, ?_, rfl, rfl, rfl⟩
  · rw [h0]
    simp only [TokenBucket.try_consume, TokenBucket.refill, sub_self, max_self,
      mul_zero, add_zero, zero_add]
    norm_num [tbEps]
  · rw [h0]
    simp only [TokenBucket.peek_tokens, TokenBucket.refill, hdt, hone, zero_add]
    exact min_eq_left hrQ
  · rw [h0]
    simp only [TokenBucket.try_consume, TokenBucket.refill, hdt, hone, zero_add]
    have hmin : min (1 : ℚ) (r : ℚ) = 1 := min_eq_left hrQ
    have : (1 : ℚ) ≤ min (1 : ℚ) (r : ℚ) + tbEps := by
      rw [hmin]; norm_num [tbEps]
    simp [this]
  · intro b now
    rfl

/-- C7 witness: the statement at rate 6 (the rate the source's own unit test
uses) and creation instant 0. -/
theorem token_bucket_behaviour_witness :
    (((consumeN 0 (TokenBucket.new 6 0) 6).try_consume 0 1).1 = false)
    ∧ (((consumeN 0 (TokenBucket.new 6 0) 6).peek_tokens (0 + 60 / (6 : ℚ))).1 = 1)
    ∧ (((consumeN 0 (TokenBucket.new 6 0) 6).try_consume (0 + 60 / (6 : ℚ)) 1).1 = true) := by
  have h := token_bucket_behaviour 6 (by decide) 0
  exact ⟨h.1, h.2.1, h.2.2.1⟩

-- ---------------------------------------------------------------------------
-- C2: the event queue send
-- ---------------------------------------------------------------------------

lemma chanStep_invariant (cap : ℕ) (x y : ChanState) (hstep : ChanStep cap x y)
    (hx : x.consumed ++ x.buf = x.accepted ∧ x.buf.length ≤ cap) :
    y.consumed ++ y.buf = y.accepted ∧ y.buf.length ≤ cap := by
  obtain ⟨h1, h2⟩ := hx
  cases hstep with
  | send e h =>
    refine ⟨?_, ?_⟩
    · simp only [← h1, List.append_assoc]
    · simp only [List.length_append, List.length_singleton]
      omega
  | recv e rest h =>
    refine ⟨?_, ?_⟩
    · rw [← h1, h]
      simp
    · rw [h] at h2
      simp only [List.length_cons] at h2
      show rest.length ≤ cap
      omega

/-- C2 (counterexample): a send into a full queue does not drop the oldest
queued event and continue; the tokio bounded send suspends the notifier
until the consumer frees space. At capacity 1 with one queued event, the
code's send waits while the spec's drop-oldest send would have produced the
queue holding only the new event. -/
theorem channel_send_counterexample :
    mpscSendAwait 1 [Event.message 1 1] (Event.message 2 1) = SendResult.waits
    ∧ SendResult.waits
        ≠ SendResult.sent (specDropOldestSend 1 [Event.message 1 1] (Event.message 2 1)) := by
  decide

/-- C2 (amended): the notifier's send awaits queue capacity: an event is
enqueued (at the back, in order) only while the queue holds fewer than its
capacity of entries, the sender suspends otherwise, and no queued event is
ever dropped — along every channel trace the accepted events are exactly the
consumed ones followed by the queued ones, and the queue never exceeds its
capacity. -/
theorem channel_send_corrected (cap : ℕ) (st : ChanState) (h : ChanReachable cap st) :
    (st.consumed ++ st.buf = st.accepted ∧ st.buf.length ≤ cap)
    ∧ (∀ (q : List Event) (e : Event), q.length < cap →
        mpscSendAwait cap q e = .sent (q ++ [e]))
    ∧ (∀ (q : List Event) (e : Event), ¬ q.length < cap →
        mpscSendAwait cap q e = .waits) := by
  refine ⟨?_, ?_, ?_⟩
  · induction h with
    | refl => exact ⟨rfl, by simp [chanInit]⟩
    | tail hsteps hstep ih => exact chanStep_invariant _ _ _ hstep ih
  · intro q e hq
    simp [mpscSendAwait, hq]
  · intro q e hq
    simp [mpscSendAwait, hq]

/-- C2 witness: the trace invariant at the state reached by one completed
send on an empty queue of capacity 2. -/
theorem channel_send_corrected_witness :
    (ChanState.mk [Event.message 5 1] [] [Event.message 5 1]).consumed
        ++ (ChanState.mk [Event.message 5 1] [] [Event.message 5 1]).buf
      = (ChanState.mk [Event.message 5 1] [] [Event.message 5 1]).accepted
    ∧ (ChanState.mk [Event.message 5 1] [] [Event.message 5 1]).buf.length ≤ 2 :=
  (channel_send_corrected 2 (ChanState.mk [Event.message 5 1] [] [Event.message 5 1])
    (Relation.ReflTransGen.tail Relation.ReflTransGen.refl
      (ChanStep.send chanInit (Event.message 5 1) (by decide)))).1

-- ---------------------------------------------------------------------------
-- C3: identity resolution under a fingerprint race
-- ---------------------------------------------------------------------------

lemma insertUser_fp_conflict (db : List UserRow) (nextId : Int) (fp kt h : String)
    (u : UserRow) (hu : u ∈ db) (hfp : u.fingerprint_sha256 = fp) :
    insertUser db nextId fp kt h = .uniqueViolation := by
  unfold insertUser
  have hany : db.any (fun v => v.fingerprint_sha256 == fp) = true :=
    List.any_eq_true.mpr ⟨u, hu, by simp [hfp]⟩
  simp [hany]

lemma insertLoop_fp_conflict (db : List UserRow) (nextId : Int) (fp kt : String)
    (gen : ℕ → String) (u : UserRow) (hu : u ∈ db) (hfp : u.fingerprint_sha256 = fp) :
    ∀ remaining tries, insertLoop db nextId fp kt gen tries remaining
      = .error "failed to create unique handle after retries" := by
  intro remaining
  induction remaining with
  | zero => intro tries; rfl
  | succ m ih =>
    intro tries
    have hv := insertUser_fp_conflict db nextId fp kt (gen tries) u hu hfp
    show insertLoop db nextId fp kt gen tries (m + 1) = _
    rw [insertLoop, hv]
    exact ih (tries + 1)

/-- C3 (code evaluated at the failing input): a resolver that lost the
first-contact race — its initial select saw no row, then another process
inserted the same fingerprint — runs its insert loop against a users table
already holding fingerprint "fp-A". Every retry hits the fingerprint unique
violation (a fresh handle cannot help), so after 10 attempts the resolver
returns the fatal setup error instead of re-reading and returning the
winner's row; the winner's row stays the only one because the loop never
inserts. A resolver whose select does see the row returns it unchanged. -/
theorem fingerprint_race_loser_fails :
    insertLoop raceDb 2 "fp-A" "ed25519" raceGen 0 10
        = .error "failed to create unique handle after retries"
    ∧ insertLoop raceDb 2 "fp-A" "ed25519" raceGen 0 10
        ≠ .ok (⟨1, "fp-A", "ed25519", "usr-w1nn3r00"⟩, raceDb)
    ∧ upsert_user_by_fp raceDb 2 "fp-A" "ed25519" raceGen
        = .ok (⟨1, "fp-A", "ed25519", "usr-w1nn3r00"⟩, raceDb) := by
  have hloop := insertLoop_fp_conflict raceDb 2 "fp-A" "ed25519" raceGen
    ⟨1, "fp-A", "ed25519", "usr-w1nn3r00"⟩ (by simp [raceDb]) rfl 10 0
  refine ⟨hloop, ?_, rfl⟩
  rw [hloop]
  simp

-- ---------------------------------------------------------------------------
-- C4: notification payload schema
-- ---------------------------------------------------------------------------

/-- C4 (counterexample): a notification whose payload spells the tag key as
"type" is not forwarded — the derived deserializer requires the renamed key
"t", so the parse fails and the notification is dropped — while the same
payload under the key "t" is forwarded. -/
theorem payload_schema_counterexample :
    handleNotification (.obj [("type", .str "msg"), ("room_id", .int 1), ("id", .int 2)]) = none
    ∧ handleNotification (.obj [("t", .str "msg"), ("room_id", .int 1), ("id", .int 2)])
        = some (.message 2 1) := by
  decide

/-- C4 (amended): a payload of shape containing t = "msg", an i64 room_id and
an i64 id is forwarded as a message-created event; a parsed payload whose tag
is not "msg" is dropped, and any payload that fails to parse is dropped — in
all cases without escalating an error (the handler's only outcomes are an
event or nothing). -/
theorem payload_schema_corrected :
    (∀ (rid i : Int), inI64 rid = true → inI64 i = true →
        handleNotification (.obj [("t", .str "msg"), ("room_id", .int rid), ("id", .int i)])
          = some (.message i rid))
    ∧ (∀ (j : Json) (p : NotifyPayload), parseNotifyPayload j = some p → p.t ≠ "msg" →
        handleNotification j = none)
    ∧ (∀ j : Json, parseNotifyPayload j = none → handleNotification j = none) := by
  refine ⟨?_, ?_, ?_⟩
  · intro rid i h1 h2
    have hred : payloadFields
        [("t", Json.str "msg"), ("room_id", Json.int rid), ("id", Json.int i)] none none none
        = if inI64 rid then (if inI64 i then some ⟨"msg", rid, i⟩ else none) else none := rfl
    show (match payloadFields
        [("t", Json.str "msg"), ("room_id", Json.int rid), ("id", Json.int i)] none none none with
      | some p => if p.t = "msg" then some (Event.message p.id p.room_id) else none
      | none => none) = some (.message i rid)
    rw [hred, h1, h2]
    rfl
  · intro j p hp ht
    show (match parseNotifyPayload j with
      | some p => if p.t = "msg" then some (Event.message p.id p.room_id) else none
      | none => none) = none
    rw [hp]
    simp [ht]
  · intro j hp
    show (match parseNotifyPayload j with
      | some p => if p.t = "msg" then some (Event.message p.id p.room_id) else none
      | none => none) = none
    rw [hp]

/-- C4 witness: the amended statement at the concrete payload with room 1
and id 2, plus a dropped payload with tag "presence". -/
theorem payload_schema_corrected_witness :
    handleNotification (.obj [("t", .str "msg"), ("room_id", .int 1), ("id", .int 2)])
        = some (.message 2 1)
    ∧ handleNotification (.obj [("t", .str "presence"), ("room_id", .int 1), ("id", .int 2)])
        = none :=
  ⟨payload_schema_corrected.1 1 2 (by decide) (by decide),
   payload_schema_corrected.2.1
     (.obj [("t", .str "presence"), ("room_id", .int 1), ("id", .int 2)])
     ⟨"presence", 1, 2⟩ (by decide) (by decide)⟩

-- ---------------------------------------------------------------------------
-- C5: over-long Send
-- ---------------------------------------------------------------------------

/-- C5 (code evaluated at the failing input): entering a 6-byte non-command
line against a 5-byte configured maximum makes handle_key return the
"message too long" error before any store access (the carried store is the
input store, untouched) and without setting a status; ui::run propagates
this error with the question-mark operator, ending the render loop, instead
of surfacing a status message and continuing. -/
theorem send_too_long_ends_session :
    longSendApp.msg_max_len < rustStrLen (rustTrim longSendApp.input)
    ∧ handle_key (fun s => s) 0 longSendApp baseStore .enter
        = .fatal "message too long" longSendApp baseStore :=
  ⟨by decide, rfl⟩

-- ---------------------------------------------------------------------------
-- C6: server-side rate gate
-- ---------------------------------------------------------------------------

lemma countP_window (s : Store) (rid uid : Int) (body : String) (t : ℕ → Int) (k L : ℕ)
    (hk : k ≤ L)
    (hmono : ∀ i j : ℕ, i ≤ j → t i ≤ t j)
    (hwin : t L - t 0 < 60)
    (hfresh : ∀ m ∈ s.messages, m.user_id ≠ uid) :
    (s.messages ++ (List.range k).map (rateRow s rid uid body t)).countP
        (fun m => m.user_id == uid && decide (t k - 60 < m.created_at)) = k := by
  rw [List.countP_append]
  have h1 : s.messages.countP
      (fun m => m.user_id == uid && decide (t k - 60 < m.created_at)) = 0 := by
    rw [List.countP_eq_zero]
    intro m hm
    simp [hfresh m hm]
  have hall : ∀ m ∈ (List.range k).map (rateRow s rid uid body t),
      (m.user_id == uid && decide (t k - 60 < m.created_at)) = true := by
    intro m hm
    simp only [List.mem_map, List.mem_range] at hm
    obtain ⟨i, hi, rfl⟩ := hm
    have hti : t 0 ≤ t i := hmono 0 i (Nat.zero_le i)
    have htk : t k ≤ t L := hmono k L hk
    have hlt : t k - 60 < t i := by omega
    simp [rateRow, hlt]
  have h2 : ((List.range k).map (rateRow s rid uid body t)).countP
      (fun m => m.user_id == uid && decide (t k - 60 < m.created_at)) = k := by
    rw [List.countP_eq_length.mpr hall]
    simp
  rw [h1, h2]
  omega

lemma sendTimes_ok (s : Store) (rid uid : Int) (body : String) (t : ℕ → Int) (L : ℕ)
    (hmono : ∀ i j : ℕ, i ≤ j → t i ≤ t j)
    (hwin : t L - t 0 < 60)
    (hfresh : ∀ m ∈ s.messages, m.user_id ≠ uid)
    (hlim : s.rateLimit = (L : Int)) :
    ∀ k, k ≤ L →
      (sendTimes s rid uid body t k).1 =
        { s with messages := s.messages ++ (List.range k).map (rateRow s rid uid body t),
                 nextMsgId := s.nextMsgId + (k : Int),
                 now := if k = 0 then s.now else t (k - 1) }
      ∧ (sendTimes s rid uid body t k).2
          = (List.range k).map (fun i => Except.ok (rateRow s rid uid body t i)) := by
  intro k
  induction k with
  | zero =>
    intro _
    constructor
    · show s = _
      cases s
      simp
    · rfl
  | succ k ih =>
    intro hk1
    have hk : k ≤ L := Nat.le_of_succ_le hk1
    obtain ⟨hst, hres⟩ := ih hk
    have hcount := countP_window s rid uid body t k L hk hmono hwin hfresh
    have hklt : ((s.messages ++ (List.range k).map (rateRow s rid uid body t)).countP
        (fun m => m.user_id == uid && decide (t k - 60 < m.created_at)) : Int) < s.rateLimit := by
      rw [hcount, hlim]
      exact_mod_cast hk1
    constructor
    · show (sendTimes s rid uid body t (k + 1)).1 = _
      rw [sendTimes, hst]
      show (insert_message _ rid uid body).2 = _
      rw [insert_message]
      simp only [if_pos hklt]
      simp [rateRow, List.range_succ]
      omega
    · show (sendTimes s rid uid body t (k + 1)).2 = _
      rw [sendTimes, hst, hres]
      show _ ++ [(insert_message _ rid uid body).1] = _
      rw [insert_message]
      simp only [if_pos hklt]
      simp [rateRow, List.range_succ]

/-- C6: starting from a store with no recent messages by the author, issuing
limit+1 writes at non-decreasing instants all inside one trailing 60-second
window makes the first `limit` calls succeed and the (limit+1)-th call
return the rate_limited error distinct from other failures, with zero rows
inserted by that call: the final message table holds exactly the `limit`
successful rows. -/
theorem server_rate_gate (s : Store) (rid uid : Int) (body : String) (t : ℕ → Int) (L : ℕ)
    (hmono : ∀ i j : ℕ, i ≤ j → t i ≤ t j)
    (hwin : t L - t 0 < 60)
    (hfresh : ∀ m ∈ s.messages, m.user_id ≠ uid)
    (hlim : s.rateLimit = (L : Int)) :
    (sendTimes s rid uid body t (L + 1)).2
        = (List.range L).map (fun i => Except.ok (rateRow s rid uid body t i))
            ++ [Except.error "rate_limited"]
    ∧ (sendTimes s rid uid body t (L + 1)).1.messages
        = s.messages ++ (List.range L).map (rateRow s rid uid body t) := by
  obtain ⟨hst, hres⟩ := sendTimes_ok s rid uid body t L hmono hwin hfresh hlim L le_rfl
  have hcount := countP_window s rid uid body t L L le_rfl hmono hwin hfresh
  have hnlt : ¬ (((s.messages ++ (List.range L).map (rateRow s rid uid body t)).countP
      (fun m => m.user_id == uid && decide (t L - 60 < m.created_at)) : Int) < s.rateLimit) := by
    rw [hcount, hlim]
    omega
  constructor
  · show (sendTimes s rid uid body t (L + 1)).2 = _
    rw [sendTimes, hst, hres]
    show _ ++ [(insert_message _ rid uid body).1] = _
    rw [insert_message]
    simp only [if_neg hnlt]
  · show (sendTimes s rid uid body t (L + 1)).1.messages = _
    rw [sendTimes, hst]
    show ((insert_message _ rid uid body).2).messages = _
    rw [insert_message]
    simp only [if_neg hnlt]

/-- C6 witness: limit 2, writes at seconds 0, 1, 2 into an empty store — two
rows land, the third call is rate_limited and inserts nothing. -/
theorem server_rate_gate_witness :
    (sendTimes rateStore 1 7 "hi" (fun i => (i : Int)) 3).2
        = [Except.ok ⟨100, 1, 7, "hi", 0, none⟩, Except.ok ⟨101, 1, 7, "hi", 1, none⟩,
           Except.error "rate_limited"]
    ∧ (sendTimes rateStore 1 7 "hi" (fun i => (i : Int)) 3).1.messages
        = [⟨100, 1, 7, "hi", 0, none⟩, ⟨101, 1, 7, "hi", 1, none⟩] := by
  have h := server_rate_gate rateStore 1 7 "hi" (fun i => (i : Int)) 2
    (fun i j hij => by exact Int.ofNat_le.mpr hij)
    (by decide)
    (by intro m hm; simp [rateStore] at hm)
    rfl
  obtain ⟨h1, h2⟩ := h
  constructor
  · rw [h1]
    rfl
  · rw [h2]
    rfl

-- ---------------------------------------------------------------------------
-- C10: the /me action
-- ---------------------------------------------------------------------------

/-- C10: a non-empty /me action is written to the store with body
"* handle action" without touching the client token bucket (the resulting
session state carries the input bucket unchanged) and without the
maximum-length check Send performs — the hypothesis exhibits a body longer
than the configured maximum, and the write still happens; only the
server-side gate inside insert_message decides the outcome, and its denial
surfaces as the rate_limited error with the store untouched. -/
theorem me_bypasses_client_checks (nfkc : String → String) (a : App) (s : Store)
    (action : String)
    (hne : rustTrim action ≠ "")
    (hlen : a.msg_max_len <
      rustStrLen ("* " ++ a.user.handle ++ " " ++ normalize_message nfkc (rustTrim action))) :
    (((s.messages.countP (fun m => m.user_id == a.user.id
          && decide (s.now - 60 < m.created_at))) : Int) < s.rateLimit →
      handle_command nfkc a s (.Me action)
        = .ok { local_append a
                  ⟨s.nextMsgId, a.room.id, a.user.id, a.user.handle,
                    "* " ++ a.user.handle ++ " " ++ normalize_message nfkc (rustTrim action),
                    s.now⟩
                with status := "me" }
            { s with
              messages := s.messages ++
                [⟨s.nextMsgId, a.room.id, a.user.id,
                  "* " ++ a.user.handle ++ " " ++ normalize_message nfkc (rustTrim action),
                  s.now, none⟩]
              nextMsgId := s.nextMsgId + 1 })
    ∧ (¬ (((s.messages.countP (fun m => m.user_id == a.user.id
          && decide (s.now - 60 < m.created_at))) : Int) < s.rateLimit) →
      handle_command nfkc a s (.Me action) = .fatal "rate_limited" a s)
    ∧ ({ local_append a
          ⟨s.nextMsgId, a.room.id, a.user.id, a.user.handle,
            "* " ++ a.user.handle ++ " " ++ normalize_message nfkc (rustTrim action), s.now⟩
        with status := "me" } : App).bucket = a.bucket := by
  have hbeq : (rustTrim action == "") = false := beq_eq_false_iff_ne.mpr hne
  refine ⟨?_, ?_, rfl⟩
  · intro hgate
    simp only [handle_command, hbeq, Bool.false_eq_true, if_false, insert_message,
      if_pos hgate]
  · intro hgate
    simp only [handle_command, hbeq, Bool.false_eq_true, if_false, insert_message,
      if_neg hgate]

/-- C10 witness: alice posts "/me waves" in a session whose configured
maximum message length is zero; the 13-byte body is written anyway. -/
theorem me_bypasses_client_checks_witness :
    handle_command (fun s => s) meApp baseStore (.Me "waves")
      = .ok { local_append meApp ⟨100, 1, 7, "alice", "* alice waves", 50⟩ with status := "me" }
          { baseStore with messages := [⟨100, 1, 7, "* alice waves", 50, none⟩],
                           nextMsgId := 101 }
    ∧ ({ local_append meApp ⟨100, 1, 7, "alice", "* alice waves", 50⟩
          with status := "me" } : App).bucket = meApp.bucket := by
  have h := me_bypasses_client_checks (fun s => s) meApp baseStore "waves"
    (by decide) (by decide)
  exact ⟨h.1 (by decide), rfl⟩

-- ---------------------------------------------------------------------------
-- C9: Leave
-- ---------------------------------------------------------------------------

/-- C9: leaving the current room while it is the only joined room is
rejected with the "cannot leave the last room" status, everything else —
messages, seen set, sidebar, current room, store — unchanged; leaving a
joined room that is not current drops its membership row from the store and
removes its sidebar entry while the current room (and the rest of the
session state) stays unchanged. -/
theorem leave_room_semantics (nfkc : String → String) :
    (∀ (a : App) (s : Store) (re : RoomEntry) (target : String),
      a.rooms = [re] → re.id = a.room.id → re.name = rustTrim target → rustTrim target ≠ "" →
      handle_command nfkc a s (.Leave (some target))
        = .ok { a with status := "cannot leave the last room" } s)
    ∧ (∀ (a : App) (s : Store) (target : String) (idx : ℕ) (re : RoomEntry),
      rustTrim target ≠ "" →
      a.rooms.findIdx? (fun r => r.name == rustTrim target) = some idx →
      a.rooms[idx]? = some re → re.id ≠ a.room.id →
      handle_command nfkc a s (.Leave (some target))
        = .ok { a with rooms := a.rooms.eraseIdx idx,
                       status := "left \x27" ++ rustTrim target ++ "\x27" }
            { s with members := s.members.filter (fun mr =>
                !(mr.room_id == re.id && mr.user_id == a.user.id)) }) := by
  constructor
  · intro a s re target h1 h2 h3 h4
    have hbeq : (rustTrim target == "") = false := beq_eq_false_iff_ne.mpr h4
    have hname : (re.name == rustTrim target) = true := beq_iff_eq.mpr h3
    have hid : (re.id == a.room.id) = true := beq_iff_eq.mpr h2
    simp only [handle_command, Option.getD_some, hbeq, Bool.false_eq_true, if_false, h1,
      List.findIdx?_cons, hname, if_true, List.getElem?_cons_zero, hid,
      List.length_singleton]
    simp
  · intro a s target idx re h4 hidx hentry hne
    have hbeq : (rustTrim target == "") = false := beq_eq_false_iff_ne.mpr h4
    have hid : (re.id == a.room.id) = false := beq_eq_false_iff_ne.mpr hne
    simp only [handle_command, Option.getD_some, hbeq, Bool.false_eq_true, if_false,
      hidx, hentry, hid, leave_room]

/-- C9 witness: with lobby the only joined room, "/leave lobby" is refused;
with lobby current and dev also joined, "/leave dev" removes dev from the
sidebar and drops its membership row while lobby stays current. -/
theorem leave_room_semantics_witness :
    handle_command (fun s => s) lastRoomApp baseStore (.Leave (some "lobby"))
      = .ok { lastRoomApp with status := "cannot leave the last room" } baseStore
    ∧ handle_command (fun s => s) twoRoomApp baseStore (.Leave (some "dev"))
      = .ok { twoRoomApp with rooms := [⟨1, "lobby", 0⟩], status := "left \x27dev\x27" }
          { baseStore with members := [⟨1, 7, 0⟩] } := by
  constructor
  · exact (leave_room_semantics (fun s => s)).1 lastRoomApp baseStore ⟨1, "lobby", 0⟩ "lobby"
      rfl rfl rfl (by decide)
  · exact (leave_room_semantics (fun s => s)).2 twoRoomApp baseStore "dev" 1 ⟨2, "dev", 3⟩
      (by decide) (by decide) (by decide) (by decide)

-- ---------------------------------------------------------------------------
-- C8: de-duplication of self-written messages
-- ---------------------------------------------------------------------------

lemma contains_iff_mem_int (ids : List Int) (x : Int) : ids.contains x = true ↔ x ∈ ids := by
  induction ids with
  | nil => simp
  | cons y ys ih => simp [List.contains_cons, ih]

lemma mem_seenInsert (ids : List Int) (x y : Int) :
    x ∈ seenInsert ids y ↔ x ∈ ids ∨ x = y := by
  unfold seenInsert
  by_cases h : ids.contains y = true
  · rw [if_pos h]
    have hy : y ∈ ids := (contains_iff_mem_int ids y).mp h
    constructor
    · exact Or.inl
    · rintro (hx | rfl)
      · exact hx
      · exact hy
  · rw [if_neg h]
    simp [List.mem_append]

lemma subset_seenInsert (ids : List Int) (y : Int) : ∀ x ∈ ids, x ∈ seenInsert ids y :=
  fun x hx => (mem_seenInsert ids x y).mpr (Or.inl hx)

lemma self_mem_seenInsert (ids : List Int) (y : Int) : y ∈ seenInsert ids y :=
  (mem_seenInsert ids y y).mpr (Or.inr rfl)

lemma mem_foldl_seenInsert (msgs : List MessageView) (acc : List Int) (x : Int)
    (h : x ∈ acc ∨ ∃ m ∈ msgs, m.id = x) :
    x ∈ msgs.foldl (fun ac m => seenInsert ac m.id) acc := by
  induction msgs generalizing acc with
  | nil =>
    rcases h with h | ⟨m, hm, _⟩
    · exact h
    · cases hm
  | cons m ms ih =>
    apply ih
    rcases h with h | ⟨m2, hm2, hx⟩
    · exact Or.inl (subset_seenInsert _ _ _ h)
    · rcases List.mem_cons.mp hm2 with rfl | hm2s
      · subst hx
        exact Or.inl (self_mem_seenInsert _ _)
      · exact Or.inr ⟨m2, hm2s, hx⟩

lemma message_view_by_id_id (s : Store) (i : Int) (v : MessageView)
    (h : message_view_by_id s i = some v) : v.id = i := by
  unfold message_view_by_id at h
  cases hfind : s.messages.find? (fun m => m.id == i) with
  | none => rw [hfind] at h; simp at h
  | some m =>
    rw [hfind] at h
    simp only [Option.some_bind] at h
    have hm := List.find?_some hfind
    have hmi : m.id = i := by simpa using hm
    cases hfu : s.users.find? (fun u => u.id == m.user_id) with
    | none => rw [hfu] at h; simp at h
    | some u =>
      rw [hfu] at h
      simp only [Option.map_some', Option.some.injEq] at h
      rw [← h]
      exact hmi

lemma dedupInv_local_append (a : App) (v : MessageView) (h : v.id ∉ a.seen_ids)
    (ha : DedupInv a) : DedupInv (local_append a v) := by
  obtain ⟨h1, h2⟩ := ha
  constructor
  · show ((a.messages ++ [v]).map (fun m => m.id)).Nodup
    rw [List.map_append]
    refine List.Nodup.append h1 (List.nodup_singleton _) ?_
    intro x hx hx2
    simp only [List.map_cons, List.map_nil, List.mem_singleton] at hx2
    subst hx2
    obtain ⟨m, hm, hmid⟩ := List.mem_map.mp hx
    exact h (hmid ▸ h2 m hm)
  · intro w hw
    rcases List.mem_append.mp hw with hw | hw
    · exact subset_seenInsert _ _ _ (h2 w hw)
    · rw [List.mem_singleton.mp hw]
      exact self_mem_seenInsert _ _

lemma dedupInv_apply_event (a : App) (s : Store) (ev : Event) (ha : DedupInv a) :
    DedupInv (apply_event a s ev) := by
  cases ev with
  | message id rid =>
    simp only [apply_event]
    by_cases hroom : (rid == a.room.id) = true
    · rw [if_pos hroom]
      cases hview : message_view_by_id s id with
      | none => exact ha
      | some v =>
        show DedupInv (if a.seen_ids.contains v.id = true then a else local_append a v)
        by_cases hseen : a.seen_ids.contains v.id = true
        · rw [if_pos hseen]
          exact ha
        · rw [if_neg hseen]
          refine dedupInv_local_append a v ?_ ha
          intro hmem
          exact hseen ((contains_iff_mem_int _ _).mpr hmem)
    · rw [if_neg hroom]
      exact ha

lemma dedupInv_reload (a : App) (room : RoomRow) (msgs : List MessageView)
    (h : (msgs.map (fun m => m.id)).Nodup) : DedupInv (reload_view a room msgs) := by
  constructor
  · exact h
  · intro v hv
    exact mem_foldl_seenInsert msgs [] v.id (Or.inr ⟨v, hv, rfl⟩)

lemma dedupInv_step (a b : App) (h : UiStep a b) (ha : DedupInv a) : DedupInv b := by
  cases h with
  | event s ev => exact dedupInv_apply_event _ _ _ ha
  | send v hv =>
    refine dedupInv_local_append a v ?_ ha
    intro hm
    rw [(contains_iff_mem_int _ _).mpr hm] at hv
    cases hv
  | reload room msgs hnd => exact dedupInv_reload _ _ _ hnd

lemma dedupInv_reachable (a b : App) (ha : DedupInv a)
    (h : Relation.ReflTransGen UiStep a b) : DedupInv b := by
  induction h with
  | refl => exact ha
  | tail hsteps hstep ih => exact dedupInv_step _ _ hstep ih

lemma event_after_local_append (a : App) (s : Store) (v : MessageView) :
    apply_event (local_append a v) s (.message v.id a.room.id) = local_append a v := by
  simp only [apply_event]
  have h1 : (a.room.id == (local_append a v).room.id) = true := by
    rw [show (local_append a v).room = a.room from rfl]
    exact beq_self_eq_true a.room.id
  rw [if_pos h1]
  cases hview : message_view_by_id s v.id with
  | none => rfl
  | some w =>
    have hw : w.id = v.id := message_view_by_id_id s v.id w hview
    have hcont : (local_append a v).seen_ids.contains w.id = true := by
      rw [hw]
      exact (contains_iff_mem_int _ _).mpr (self_mem_seenInsert a.seen_ids v.id)
    show (if (local_append a v).seen_ids.contains w.id = true then local_append a v
      else local_append (local_append a v) w) = local_append a v
    rw [if_pos hcont]

/-- C8: a message the session wrote and appended locally is marked seen, so
a later notifier event carrying the same message id leaves the message list
unchanged; and along every sequence of session steps (drained events, local
appends of fresh ids, history reloads of distinct rows) starting from a
state satisfying the de-duplication invariant, the current-room message list
never contains two entries with the same id. -/
theorem dedup_no_double_append :
    (∀ (a : App) (s : Store) (v : MessageView),
      apply_event (local_append a v) s (.message v.id a.room.id) = local_append a v)
    ∧ (∀ (a b : App), DedupInv a → Relation.ReflTransGen UiStep a b →
      (b.messages.map (fun m => m.id)).Nodup) :=
  ⟨fun a s v => event_after_local_append a s v,
   fun _ b ha h => (dedupInv_reachable _ b ha h).1⟩

/-- C8 witness: alice's freshly written message (id 5) is appended locally;
the echoed notifier event for id 5 in the current room changes nothing, and
after the local-append step the message-id list is duplicate-free. -/
theorem dedup_no_double_append_witness :
    apply_event (local_append dedupApp dedupView) baseStore (.message 5 1)
      = local_append dedupApp dedupView
    ∧ ((local_append dedupApp dedupView).messages.map (fun m => m.id)).Nodup := by
  constructor
  · exact dedup_no_double_append.1 dedupApp baseStore dedupView
  · exact dedup_no_double_append.2 dedupApp (local_append dedupApp dedupView)
      ⟨by simp [dedupApp], by intro v hv; simp [dedupApp] at hv⟩
      (Relation.ReflTransGen.tail Relation.ReflTransGen.refl
        (UiStep.send dedupApp dedupView (by decide)))

end BBS
